import Mathlib

/-!
Verification of the muP bookkeeping core (`hk_mup/mup.py`).

The Python source is shallowly embedded: Python dicts become insertion-ordered
association lists, the mutable `Mup` object becomes a record threaded through
the operations, raised exceptions become an explicit error type, and numeric
values (dimension ratios, learning rates, initializer standard deviations,
update leaves) are rationals.
-/

namespace HkMup

/-- An insertion-ordered association list, modelling a Python `dict`. -/
abbrev Dict (α : Type) : Type := List (String × α)

/-- Python `d[k]` lookup returning `none` on a missing key (`dict.get`). -/
def dget {α : Type} : Dict α → String → Option α
  | [], _ => none
  | (k, v) :: rest, key => if k = key then some v else dget rest key

/-- Python `d[k] = v`: replace the value of an existing key in place,
otherwise append the new binding at the end. -/
def dset {α : Type} : Dict α → String → α → Dict α
  | [], key, v => [(key, v)]
  | (k, w) :: rest, key, v =>
    if k = key then (key, v) :: rest else (k, w) :: dset rest key v

/-- The keys of a dict, in order. -/
def dkeys {α : Type} (d : Dict α) : List String := d.map (·.1)

/-- Two-level lookup `d[p][n]` returning `none` when either key is missing. -/
def dget2 {α : Type} (d : Dict (Dict α)) (p n : String) : Option α :=
  (dget d p).bind fun inner => dget inner n

/-- Python `defaultdict(dict)` assignment `d[p][n] = v`: a missing parent key
is created with an empty inner dict before the inner assignment. -/
def dsetNested {α : Type} (d : Dict (Dict α)) (p n : String) (v : α) :
    Dict (Dict α) :=
  match dget d p with
  | some inner => dset d p (dset inner n v)
  | none => dset d p (dset [] n v)

/-- Python `s.split(sep)` for the single-character scope separator, on the
character list of the string: empty chunks are kept, and splitting the empty
string yields one empty chunk. -/
def splitSlash : List Char → List (List Char)
  | [] => [[]]
  | c :: cs =>
    if c = '/' then [] :: splitSlash cs
    else
      match splitSlash cs with
      | [] => [[c]]
      | h :: t => (c :: h) :: t

/-- Python `full_name.rsplit(sep)` with no maxsplit: the same chunk list as
`split`, since every separator is split on. -/
def pySplitSlash (s : String) : List String :=
  (splitSlash s.toList).map fun cs => String.mk cs

/-- Python `parent, name = full_name.rsplit(sep)`: the unpacking succeeds
exactly when the chunk list has exactly two elements, i.e. the name holds
exactly one separator; otherwise a ValueError is raised (modelled as `none`). -/
def rsplitUnpack2 (s : String) : Option (String × String) :=
  match pySplitSlash s with
  | [p, n] => some (p, n)
  | _ => none

/-- Python `full_name.rsplit(sep)[0]` as used by `_mup_getter`: the first
chunk, i.e. the text before the first separator. -/
def rsplitHead (s : String) : String := (pySplitSlash s).headD ""

/-- Joining chunks back with the separator (for stating what splitting at the
last separator would return). -/
def joinSlash : List String → String
  | [] => ""
  | [x] => x
  | x :: rest => x ++ "/" ++ joinSlash rest

/-- Splitting a full name at its last separator only, as the spec describes
the decomposition: (everything before the last separator, the final chunk). -/
def lastSepSplit (s : String) : String × String :=
  let parts := pySplitSlash s
  (joinSlash parts.dropLast, (parts.getLast?).getD "")

/-- The errors raised by the muP core (Python `ValueError` / `KeyError`
sites, distinguished by constructor). -/
inductive MupError where
  /-- `At most two infinite dimensions supported. Found {n_inf} in {full_name}` -/
  | tooManyInfDims (fullName : String) (count : ℕ)
  /-- ValueError from `parent, name = full_name.rsplit(sep)` when the chunk
  count is not two. -/
  | unpackMismatch (fullName : String)
  /-- KeyError from `base_shapes[parent][name]`. -/
  | missingBaseShape (fullName : String)
  /-- TypeError from subscripting `base_shapes` while it is `None`. -/
  | noBaseShapesBound
  /-- `Attempted to re-use mup context` -/
  | contextReuse
  /-- `Attempted to wrap optimizer before initializing network` -/
  | emptyRegistry
  deriving Repr, DecidableEq

/-- A tensor shape: the list of dimension sizes. -/
abbrev Shape := List ℕ

/-- `n_inf = sum(a != b for a, b in zip(base, shape))` in `_get_inf_ratios`. -/
def nInfCount (base shape : Shape) : ℕ :=
  (base.zip shape).countP fun p => decide (p.1 ≠ p.2)

/-- `inf_ratios = [b / a for a, b in zip(base, shape) if a != b]` in
`_get_inf_ratios`. -/
def infRatioList (base shape : Shape) : List ℚ :=
  ((base.zip shape).filter fun p => decide (p.1 ≠ p.2)).map
    fun p => (p.2 : ℚ) / (p.1 : ℚ)

/-- The shape analysis of `_get_inf_ratios` once the base shape is in hand:
count the infinite dimensions, reject a count above two, and return the count
with the ordered ratio list. -/
def analyzeShapes (fullName : String) (base shape : Shape) :
    Except MupError (ℕ × List ℚ) :=
  let n := nInfCount base shape
  if n > 2 then .error (.tooManyInfDims fullName n)
  else .ok (n, infRatioList base shape)

/-- The `Mup` object: the bound base shapes (`None` outside a session) and the
three registries created in `Mup.__init__`. -/
structure Mup where
  base_shapes : Option (Dict (Dict Shape))
  readout_mults : Dict ℚ
  adam_lrs : Dict (Dict ℚ)
  sgd_lrs : Dict (Dict ℚ)
  deriving Repr, DecidableEq

/-- `Mup.__init__`: no base shapes bound, all registries empty. -/
def mkMup : Mup :=
  { base_shapes := none, readout_mults := [], adam_lrs := [], sgd_lrs := [] }

/-- `Mup.set_lrs`: unpack the full name, then record the SGD and Adam learning
rates under the same (parent, name) key. The state is returned together with
the outcome; an unpack failure leaves the registries untouched. -/
def Mup.set_lrs (m : Mup) (full_name : String) (sgd_lr adam_lr : ℚ) :
    Mup × Except MupError Unit :=
  match rsplitUnpack2 full_name with
  | none => (m, .error (.unpackMismatch full_name))
  | some (parent, name) =>
    ({ m with
        sgd_lrs := dsetNested m.sgd_lrs parent name sgd_lr,
        adam_lrs := dsetNested m.adam_lrs parent name adam_lr }, .ok ())

/-- `_get_inf_ratios`: unpack the full name, look up the base shape, and run
the shape analysis against the requested shape. Read-only. -/
def get_inf_ratios (m : Mup) (full_name : String) (shape : Shape) :
    Except MupError (ℕ × List ℚ) :=
  match rsplitUnpack2 full_name with
  | none => .error (.unpackMismatch full_name)
  | some (parent, name) =>
    match m.base_shapes with
    | none => .error .noBaseShapesBound
    | some bs =>
      match dget bs parent with
      | none => .error (.missingBaseShape full_name)
      | some inner =>
        match dget inner name with
        | none => .error (.missingBaseShape full_name)
        | some base => analyzeShapes full_name base shape

/-- The creation/read context handed to the interceptors. Modelled from the
spec: the `Readout` module class (src file `module.py` is absent from the
sources) is the module-capability flag the spec describes, so
`isinstance(context.module, Readout)` becomes the Boolean field
`module_is_readout`. -/
structure ParamContext where
  full_name : String
  module_is_readout : Bool
  deriving Repr, DecidableEq

/-- Modelled from the spec: `ConstantStdInit` (src file `init.py` is absent
from the sources). An initializer is modelled by the standard deviation it
generates; wrapping it with factor `div` scales that standard deviation by
`div`, so `div = 1 / width_mult` divides it by `width_mult`, exactly the
rescaling rule the spec states for readout weights. -/
def ConstantStdInit (std div : ℚ) : ℚ := std * div

/-- `_mup_creator`: analyze the shape, record learning rates by case on the
infinite-dimension count, and on the readout path rescale the initializer and
record the width multiplier. Returns the state after the call together with
the initializer handed to `next_creator` (or the error raised). -/
def mup_creator (m : Mup) (shape : Shape) (init : ℚ) (context : ParamContext) :
    Mup × Except MupError ℚ :=
  match get_inf_ratios m context.full_name shape with
  | .error e => (m, .error e)
  | .ok (n_inf, inf_rs) =>
    match rsplitUnpack2 context.full_name with
    | none => (m, .error (.unpackMismatch context.full_name))
    | some (parent, _) =>
      let width_mult : ℚ := if n_inf = 0 then 1 else inf_rs.headD 0
      let step :=
        if n_inf = 2 then
          m.set_lrs context.full_name (1 / (width_mult / inf_rs.getD 1 0))
            (1 / width_mult)
        else if n_inf = 1 then
          m.set_lrs context.full_name width_mult 1
        else
          m.set_lrs context.full_name 1 1
      match step with
      | (m1, .error e) => (m1, .error e)
      | (m1, .ok _) =>
        if context.module_is_readout && n_inf == 1 then
          ({ m1 with readout_mults := dset m1.readout_mults parent width_mult },
            .ok (ConstantStdInit init (1 / width_mult)))
        else
          (m1, .ok init)

/-- `_mup_getter`: pass non-readout values through; for readout modules look
up the first name chunk in the readout-multiplier registry and divide by the
recorded multiplier, passing through when the entry is absent (or falsy). -/
def mup_getter (m : Mup) (value : ℚ) (context : ParamContext) : ℚ :=
  if !context.module_is_readout then value
  else
    let parent := rsplitHead context.full_name
    match dget m.readout_mults parent with
    | none => value
    | some width_mult => if width_mult = 0 then value else value / width_mult

/-- The process-wide picture around one session: whether the ContextVar
`_mup_context` currently holds the session, and the session object itself. -/
structure World where
  mup_context : Bool
  session : Mup
  deriving Repr, DecidableEq

/-- The observable outcome of `with mup.init_context(base_shapes): body`. -/
inductive CtxResult where
  /-- Normal return of the body. -/
  | ok (w : World)
  /-- The re-use ValueError raised at entry. -/
  | reuseError (w : World)
  /-- An error raised inside the body, propagating out of the scope. -/
  | bodyError (w : World)
  deriving Repr, DecidableEq

/-- Whether the scope was entered (i.e. the outcome is not the re-use error
raised at entry). -/
def CtxResult.isReuseError : CtxResult → Bool
  | .reuseError _ => true
  | _ => false

/-- `Mup.init_context`, step for step: bind the base shapes, set the
ContextVar, raise the re-use error when the Adam registry is non-empty —
note this raise sits before the `try`, so no cleanup runs on that path —
then run the body and, in the `finally`, reset the ContextVar to its previous
value and clear the base shapes. The body is an arbitrary transformation of
the session that reports whether it raised. -/
def Mup.init_context (w : World) (bs : Dict (Dict Shape))
    (body : Mup → Mup × Bool) : CtxResult :=
  let s1 : Mup := { w.session with base_shapes := some bs }
  if s1.adam_lrs.length ≠ 0 then
    .reuseError { mup_context := true, session := s1 }
  else
    let r := body s1
    let wf : World :=
      { mup_context := w.mup_context, session := { r.1 with base_shapes := none } }
    if r.2 then .bodyError wf else .ok wf

/-- A pytree of per-parameter scalars keyed like the parameter dict. -/
abbrev Tree := Dict (Dict ℚ)

/-- An Optax gradient transformation over state type `σ`; `update_fn` returns
`none` where the real code would raise (e.g. a tree-structure mismatch). -/
structure GradientTransformation (σ : Type) where
  init_fn : Tree → σ
  update_fn : Tree → σ → Option (Tree × σ)

/-- Key-set agreement of two flat dicts. -/
def innerKeysMatch (a b : Dict ℚ) : Bool :=
  (a.all fun p => (dget b p.1).isSome) && (b.all fun p => (dget a p.1).isSome)

/-- Key-structure agreement of two two-level trees, as `jax.tree_map` over two
trees requires. -/
def treeStructMatch (a b : Tree) : Bool :=
  (a.all fun p =>
    match dget b p.1 with
    | some bi => innerKeysMatch p.2 bi
    | none => false) && (b.all fun p => (dget a p.1).isSome)

/-- `jax.tree_map(f, a, b)`: requires matching key structure (else the
structural error, modelled as `none`) and combines matching leaves. -/
def treeMap2 (f : ℚ → ℚ → ℚ) (a b : Tree) : Option Tree :=
  if treeStructMatch a b then
    some (a.map fun p =>
      (p.1, p.2.map fun q =>
        (q.1, f q.2 (((dget b p.1).bind fun bi => dget bi q.1).getD 0))))
  else none

/-- `optax.chain` of two transformations: paired state, updates flow through
the first and then the second. -/
def optaxChain {σ₁ σ₂ : Type} (o1 : GradientTransformation σ₁)
    (o2 : GradientTransformation σ₂) : GradientTransformation (σ₁ × σ₂) where
  init_fn := fun params => (o1.init_fn params, o2.init_fn params)
  update_fn := fun updates state => do
    let r1 ← o1.update_fn updates state.1
    let r2 ← o2.update_fn r1.1 state.2
    some (r2.1, (r1.2, r2.2))

/-- `Mup.wrap_optimizer`: reject an empty Adam registry, otherwise chain the
base optimizer with a stateless stage that multiplies the update tree
elementwise by the selected learning-rate tree. -/
def Mup.wrap_optimizer {σ : Type} (m : Mup) (optimizer : GradientTransformation σ)
    (adam : Bool) : Except MupError (GradientTransformation (σ × Unit)) :=
  if m.adam_lrs.length = 0 then .error .emptyRegistry
  else
    let scales := if adam then m.adam_lrs else m.sgd_lrs
    .ok (optaxChain optimizer
      { init_fn := fun _ => ()
        update_fn := fun updates state =>
          (treeMap2 (fun u s => u * s) updates scales).map fun u2 => (u2, state) })

/-- A sequence of `set_lrs` recordings, stopping at the first error (as the
raised ValueError would abort the construction pass). -/
def runSetLrs : Mup → List (String × ℚ × ℚ) → Mup
  | m, [] => m
  | m, (f, s, a) :: rest =>
    match m.set_lrs f s a with
    | (m1, .ok _) => runSetLrs m1 rest
    | (m1, .error _) => m1

/-- The key structure of a two-level registry: parent keys with their ordered
name keys. -/
def keyStruct (d : Dict (Dict ℚ)) : Dict (List String) :=
  d.map fun p => (p.1, dkeys p.2)

/-- Claim-side description of the differing dimension positions: the indices,
in increasing order, at which base and actual disagree. -/
def diffIdx (base actual : Shape) : List ℕ :=
  (List.range base.length).filter fun i =>
    decide (base.getD i 0 ≠ actual.getD i 0)

/-- Claim-side description of the ratio list: `actual_dim / base_dim` at
exactly the differing positions, in dimension order. -/
def specRatios (base actual : Shape) : List ℚ :=
  (diffIdx base actual).map fun i =>
    ((actual.getD i 0 : ℕ) : ℚ) / ((base.getD i 0 : ℕ) : ℚ)

/-- The key list after a dict assignment: unchanged when the key is already
present, else the key appended. -/
def keysAfterSet : List String → String → List String
  | [], k => [k]
  | k1 :: rest, k => if k1 = k then k1 :: rest else k1 :: keysAfterSet rest k

/-- The key structure after a nested (defaultdict) assignment, as a function
of the old key structure alone. -/
def kstructSet (ks : Dict (List String)) (p n : String) : Dict (List String) :=
  match dget ks p with
  | some names => dset ks p (keysAfterSet names n)
  | none => dset ks p [n]

/- ### Concrete fixtures used by the witness theorems -/

/-- A session with a rank-3 base shape bound, for exercising the
too-many-infinite-dimensions error. -/
def mFix3 : Mup := { mkMup with base_shapes := some [("m", [("w", [1, 2, 3])])] }

/-- A session with a rank-2 base shape bound, for exercising the learning-rate
rules. -/
def mFix2 : Mup := { mkMup with base_shapes := some [("lin", [("w", [4, 2])])] }

/-- A session with a rank-1 base shape bound, for exercising the readout
branch. -/
def mFix1 : Mup := { mkMup with base_shapes := some [("out", [("w", [4])])] }

/-- A session with a recorded readout multiplier, for exercising the getter. -/
def mFixGet : Mup := { mkMup with readout_mults := [("m", 8)] }

/-- A session whose learning-rate registries are already populated. -/
def mFixUsed : Mup :=
  { mkMup with adam_lrs := [("m", [("w", 2)])], sgd_lrs := [("m", [("w", 3)])] }

/-- An optimizer that passes updates through and keeps no state. -/
def idOpt : GradientTransformation Unit where
  init_fn := fun _ => ()
  update_fn := fun u s => some (u, s)

/-- The learning-rate scaling stage that `wrap_optimizer` chains after the
base optimizer when called on `mFixUsed` with the Adam rule. -/
def secondFix : GradientTransformation Unit where
  init_fn := fun _ => ()
  update_fn := fun updates state =>
    (treeMap2 (fun a b => a * b) updates mFixUsed.adam_lrs).map
      fun u2 => (u2, state)

/- ### Helper lemmas -/

theorem filterMapSucc (p : ℕ → Bool) (l : List ℕ) :
    (l.map Nat.succ).filter p = (l.filter fun i => p (Nat.succ i)).map Nat.succ := by
  induction l with
  | nil => rfl
  | cons x xs ih =>
    simp only [List.map_cons, List.filter_cons]
    cases hp : p (Nat.succ x) <;> simp [hp, ih]

theorem diffIdx_cons (a b : ℕ) (as bs : Shape) :
    diffIdx (a :: as) (b :: bs) =
      if a = b then (diffIdx as bs).map Nat.succ
      else 0 :: (diffIdx as bs).map Nat.succ := by
  unfold diffIdx
  rw [List.length_cons, List.range_succ_eq_map, List.filter_cons, filterMapSucc]
  simp only [List.getD_cons_zero, Nat.succ_eq_add_one, List.getD_cons_succ]
  by_cases hab : a = b
  · simp [hab]
  · simp [hab]

theorem specRatios_cons (a b : ℕ) (as bs : Shape) :
    specRatios (a :: as) (b :: bs) =
      if a = b then specRatios as bs
      else ((b : ℚ) / (a : ℚ)) :: specRatios as bs := by
  unfold specRatios
  rw [diffIdx_cons]
  by_cases hab : a = b
  · simp [hab, List.map_map, Function.comp_def]
  · simp [hab, List.map_map, Function.comp_def]

theorem infRatioList_cons (a b : ℕ) (as bs : Shape) :
    infRatioList (a :: as) (b :: bs) =
      if a = b then infRatioList as bs
      else ((b : ℚ) / (a : ℚ)) :: infRatioList as bs := by
  unfold infRatioList
  simp only [List.zip_cons_cons, List.filter_cons]
  by_cases hab : a = b <;> simp [hab]

theorem nInfCount_cons (a b : ℕ) (as bs : Shape) :
    nInfCount (a :: as) (b :: bs) =
      (if a = b then 0 else 1) + nInfCount as bs := by
  unfold nInfCount
  simp only [List.zip_cons_cons, List.countP_cons]
  by_cases hab : a = b <;> simp [hab, Nat.add_comm]

theorem analyze_core : ∀ (base actual : Shape), base.length = actual.length →
    nInfCount base actual = (diffIdx base actual).length ∧
    infRatioList base actual = specRatios base actual := by
  intro base
  induction base with
  | nil =>
    intro actual h
    cases actual with
    | nil => exact ⟨rfl, rfl⟩
    | cons b bs => simp at h
  | cons a as ih =>
    intro actual h
    cases actual with
    | nil => simp at h
    | cons b bs =>
      have hlen : as.length = bs.length := by simpa using h
      obtain ⟨ih1, ih2⟩ := ih bs hlen
      refine ⟨?_, ?_⟩
      · rw [nInfCount_cons, diffIdx_cons]
        by_cases hab : a = b
        · simp [hab, ih1]
        · simp [hab, ih1]
          omega
      · rw [infRatioList_cons, specRatios_cons]
        by_cases hab : a = b <;> simp [hab, ih2]

theorem dget_dset_self {α : Type} (d : Dict α) (k : String) (v : α) :
    dget (dset d k v) k = some v := by
  induction d with
  | nil => simp [dset, dget]
  | cons p rest ih =>
    obtain ⟨k1, v1⟩ := p
    by_cases hk : k1 = k
    · simp [dset, hk, dget]
    · simp [dset, hk, dget, ih]

theorem dget2_dsetNested_self {α : Type} (d : Dict (Dict α)) (p n : String) (v : α) :
    dget2 (dsetNested d p n v) p n = some v := by
  unfold dsetNested dget2
  cases hd : dget d p
  · simp [dget_dset_self, dset, dget]
  · simp [dget_dset_self]

theorem set_lrs_run (m : Mup) (full_name parent name : String) (sgd adam : ℚ)
    (hsplit : rsplitUnpack2 full_name = some (parent, name)) :
    m.set_lrs full_name sgd adam =
      ({ m with
          sgd_lrs := dsetNested m.sgd_lrs parent name sgd,
          adam_lrs := dsetNested m.adam_lrs parent name adam }, .ok ()) := by
  unfold Mup.set_lrs
  rw [hsplit]

theorem get_inf_ratios_run (m : Mup) (full_name parent name : String)
    (bs : Dict (Dict Shape)) (inner : Dict Shape) (base shape : Shape)
    (hsplit : rsplitUnpack2 full_name = some (parent, name))
    (hbs : m.base_shapes = some bs)
    (hp : dget bs parent = some inner)
    (hn : dget inner name = some base) :
    get_inf_ratios m full_name shape = analyzeShapes full_name base shape := by
  simp only [get_inf_ratios, hsplit, hbs, hp, hn]

theorem analyzeShapes_ok (full_name : String) (base shape : Shape)
    (hlen : base.length = shape.length)
    (hk : (diffIdx base shape).length ≤ 2) :
    analyzeShapes full_name base shape =
      .ok ((diffIdx base shape).length, specRatios base shape) := by
  obtain ⟨hc, hr⟩ := analyze_core base shape hlen
  simp only [analyzeShapes]
  rw [hc, hr, if_neg (by omega)]

theorem analyzeShapes_err (full_name : String) (base shape : Shape)
    (hlen : base.length = shape.length)
    (hk : 3 ≤ (diffIdx base shape).length) :
    analyzeShapes full_name base shape =
      .error (.tooManyInfDims full_name ((diffIdx base shape).length)) := by
  obtain ⟨hc, -⟩ := analyze_core base shape hlen
  simp only [analyzeShapes]
  rw [hc, if_pos (by omega)]

/- ### Claim theorems -/

/-- C2: for every pair of equal-length positive-integer shapes (base, actual)
differing in exactly k ∈ {0,1,2} dimensions, the shape-ratio analysis returns
count = k together with the ordered list of ratios actual/base taken at
exactly the differing positions, in dimension order. -/
theorem shape_ratio_analysis (full_name : String) (base actual : Shape)
    (hlen : base.length = actual.length)
    (_hpos : ∀ d ∈ base, 0 < d) (_hposActual : ∀ d ∈ actual, 0 < d)
    (hk : (diffIdx base actual).length ≤ 2) :
    analyzeShapes full_name base actual =
      .ok ((diffIdx base actual).length, specRatios base actual) :=
  analyzeShapes_ok full_name base actual hlen hk

/-- Witness for C2: base (3, 4) against actual (6, 4) has one differing
dimension with ratio 2. -/
theorem shape_ratio_analysis_witness :
    analyzeShapes "m/w" [3, 4] [6, 4] = .ok (1, [2]) := by
  have h := shape_ratio_analysis "m/w" [3, 4] [6, 4] (by decide) (by decide)
    (by decide) (by decide)
  rw [h]
  simp only [specRatios]
  rw [show diffIdx [3, 4] [6, 4] = [0] from by decide]
  norm_num [List.getD_cons_zero]

/-- C7: for every pair of equal-length shapes differing in three or more
dimensions, the shape-ratio analysis fails with the too-many-infinite-
dimensions error carrying the parameter's full name and the observed count,
and the creator returns with the session state untouched — no registry is
written. -/
theorem too_many_inf_dims (full_name parent name : String) (m : Mup)
    (bs : Dict (Dict Shape)) (inner : Dict Shape) (base actual : Shape)
    (init : ℚ) (ro : Bool)
    (hsplit : rsplitUnpack2 full_name = some (parent, name))
    (hbs : m.base_shapes = some bs)
    (hp : dget bs parent = some inner)
    (hn : dget inner name = some base)
    (hlen : base.length = actual.length)
    (hk : 3 ≤ (diffIdx base actual).length) :
    analyzeShapes full_name base actual =
      .error (.tooManyInfDims full_name ((diffIdx base actual).length)) ∧
    mup_creator m actual init ⟨full_name, ro⟩ =
      (m, .error (.tooManyInfDims full_name ((diffIdx base actual).length))) := by
  have ha := analyzeShapes_err full_name base actual hlen hk
  have hg := get_inf_ratios_run m full_name parent name bs inner base actual
    hsplit hbs hp hn
  refine ⟨ha, ?_⟩
  simp only [mup_creator, hg, ha]

/-- Witness for C7: base (1, 2, 3) against actual (2, 3, 4) differs in all
three dimensions; the creator raises and leaves the session unchanged. -/
theorem too_many_inf_dims_witness :
    mup_creator mFix3 [2, 3, 4] 1 ⟨"m/w", false⟩ =
      (mFix3, .error (.tooManyInfDims "m/w" 3)) := by
  have h := (too_many_inf_dims "m/w" "m" "w" mFix3 [("m", [("w", [1, 2, 3])])]
    [("w", [1, 2, 3])] [1, 2, 3] [2, 3, 4] 1 false (by decide) rfl (by decide)
    (by decide) (by decide) (by decide)).2
  rw [show (diffIdx [1, 2, 3] [2, 3, 4]).length = 3 from by decide] at h
  exact h

/-- C1: for a parameter whose base and actual shapes differ in k infinite
dimensions, the creator records in the learning-rate registry exactly:
k = 0 — sgd 1 and adam 1; k = 1 — sgd width_mult and adam 1; k = 2 —
sgd 1 / (width_mult / second-ratio) and adam 1 / width_mult, where
width_mult is 1 for k = 0 and otherwise the first differing dimension's
ratio. -/
theorem creator_lr_rules (full_name parent name : String) (m : Mup)
    (bs : Dict (Dict Shape)) (inner : Dict Shape) (base actual : Shape)
    (init : ℚ) (ro : Bool)
    (hsplit : rsplitUnpack2 full_name = some (parent, name))
    (hbs : m.base_shapes = some bs)
    (hp : dget bs parent = some inner)
    (hn : dget inner name = some base)
    (hlen : base.length = actual.length)
    (hk : (diffIdx base actual).length ≤ 2) :
    ((diffIdx base actual).length = 0 →
      dget2 ((mup_creator m actual init ⟨full_name, ro⟩).1).sgd_lrs parent name =
        some 1 ∧
      dget2 ((mup_creator m actual init ⟨full_name, ro⟩).1).adam_lrs parent name =
        some 1) ∧
    ((diffIdx base actual).length = 1 →
      dget2 ((mup_creator m actual init ⟨full_name, ro⟩).1).sgd_lrs parent name =
        some ((specRatios base actual).headD 0) ∧
      dget2 ((mup_creator m actual init ⟨full_name, ro⟩).1).adam_lrs parent name =
        some 1) ∧
    ((diffIdx base actual).length = 2 →
      dget2 ((mup_creator m actual init ⟨full_name, ro⟩).1).sgd_lrs parent name =
        some (1 / ((specRatios base actual).headD 0 / (specRatios base actual).getD 1 0)) ∧
      dget2 ((mup_creator m actual init ⟨full_name, ro⟩).1).adam_lrs parent name =
        some (1 / (specRatios base actual).headD 0)) := by
  have hg := get_inf_ratios_run m full_name parent name bs inner base actual
    hsplit hbs hp hn
  have ha := analyzeShapes_ok full_name base actual hlen hk
  refine ⟨?_, ?_, ?_⟩ <;> intro hkk <;>
    rw [hkk] at ha <;>
      cases ro <;>
        simp [mup_creator, hg, ha, Mup.set_lrs, hsplit, dget2_dsetNested_self]

/-- Witness for C1: base (4, 2) against actual (8, 8) has two infinite
dimensions with ratios 2 and 4, so sgd_lr = 1 / (2 / 4) = 2 and
adam_lr = 1 / 2. -/
theorem creator_lr_rules_witness :
    dget2 ((mup_creator mFix2 [8, 8] 1 ⟨"lin/w", false⟩).1).sgd_lrs "lin" "w" =
      some 2 ∧
    dget2 ((mup_creator mFix2 [8, 8] 1 ⟨"lin/w", false⟩).1).adam_lrs "lin" "w" =
      some (1 / 2) := by
  have hr : specRatios [4, 2] [8, 8] = [2, 4] := by
    simp only [specRatios]
    rw [show diffIdx [4, 2] [8, 8] = [0, 1] from by decide]
    norm_num [List.getD_cons_zero, List.getD_cons_succ]
  have h := (creator_lr_rules "lin/w" "lin" "w" mFix2 [("lin", [("w", [4, 2])])]
    [("w", [4, 2])] [4, 2] [8, 8] 1 false (by decide) rfl (by decide) (by decide)
    (by decide) (by decide)).2.2 (by decide)
  rw [hr] at h
  exact ⟨h.1.trans (by norm_num), h.2.trans (by norm_num)⟩

/-- C6: under an active session, a readout-kind parameter with exactly one
infinite dimension gets width_mult recorded in the readout-multiplier
registry under its parent scope and its initializer's standard deviation
divided by width_mult; with zero or two infinite dimensions, or for a
non-readout module, the readout registry is untouched and the initializer is
passed through unmodified. -/
theorem readout_rescale (full_name parent name : String) (m : Mup)
    (bs : Dict (Dict Shape)) (inner : Dict Shape) (base actual : Shape)
    (init : ℚ) (ro : Bool)
    (hsplit : rsplitUnpack2 full_name = some (parent, name))
    (hbs : m.base_shapes = some bs)
    (hp : dget bs parent = some inner)
    (hn : dget inner name = some base)
    (hlen : base.length = actual.length)
    (hk : (diffIdx base actual).length ≤ 2) :
    (ro = true → (diffIdx base actual).length = 1 →
      dget ((mup_creator m actual init ⟨full_name, ro⟩).1).readout_mults parent =
        some ((specRatios base actual).headD 0) ∧
      (mup_creator m actual init ⟨full_name, ro⟩).2 =
        .ok (init / (specRatios base actual).headD 0)) ∧
    ((ro = false ∨ (diffIdx base actual).length ≠ 1) →
      ((mup_creator m actual init ⟨full_name, ro⟩).1).readout_mults =
        m.readout_mults ∧
      (mup_creator m actual init ⟨full_name, ro⟩).2 = .ok init) := by
  have hg := get_inf_ratios_run m full_name parent name bs inner base actual
    hsplit hbs hp hn
  have ha := analyzeShapes_ok full_name base actual hlen hk
  constructor
  · intro hro hkk
    rw [hkk] at ha
    subst hro
    simp [mup_creator, hg, ha, Mup.set_lrs, hsplit, dget_dset_self,
      ConstantStdInit, mul_one_div, div_eq_mul_inv]
  · intro hcase
    rcases hcase with hro | hkk
    · subst hro
      have h3 : (diffIdx base actual).length = 0 ∨ (diffIdx base actual).length = 1 ∨
          (diffIdx base actual).length = 2 := by omega
      rcases h3 with h | h | h <;> rw [h] at ha <;>
        simp [mup_creator, hg, ha, Mup.set_lrs, hsplit]
    · have h3 : (diffIdx base actual).length = 0 ∨ (diffIdx base actual).length = 2 := by
        omega
      rcases h3 with h | h <;> rw [h] at ha <;> cases ro <;>
        simp [mup_creator, hg, ha, Mup.set_lrs, hsplit]

/-- Witness for C6: base (4,) against actual (8,) for a readout module:
multiplier 2 is recorded under "out" and the initializer std 6 becomes 3. -/
theorem readout_rescale_witness :
    dget ((mup_creator mFix1 [8] 6 ⟨"out/w", true⟩).1).readout_mults "out" =
      some 2 ∧
    (mup_creator mFix1 [8] 6 ⟨"out/w", true⟩).2 = .ok 3 := by
  have hr : specRatios [4] [8] = [2] := by
    simp only [specRatios]
    rw [show diffIdx [4] [8] = [0] from by decide]
    norm_num [List.getD_cons_zero]
  have h := (readout_rescale "out/w" "out" "w" mFix1 [("out", [("w", [4])])]
    [("w", [4])] [4] [8] 6 true (by decide) rfl (by decide) (by decide) (by decide)
    (by decide)).1 rfl (by decide)
  rw [hr] at h
  exact ⟨h.1.trans (by norm_num), h.2.trans (by norm_num)⟩

/-- C3 counterexample: for the full name "a/b/c" (two separators) the code
does not split at the last separator: the unpack in `set_lrs` (and equally in
`_get_inf_ratios` / `_mup_creator`) raises instead of yielding ("a/b", "c"),
and the getter's registry key is "a" — the text before the *first*
separator — not the immediate parent "a/b". -/
theorem name_split_counterexample :
    rsplitUnpack2 "a/b/c" = none ∧
    (mkMup.set_lrs "a/b/c" 1 1).2 = .error (.unpackMismatch "a/b/c") ∧
    lastSepSplit "a/b/c" = ("a/b", "c") ∧
    rsplitHead "a/b/c" = "a" ∧
    rsplitHead "a/b/c" ≠ (lastSepSplit "a/b/c").1 := by
  refine ⟨by decide, ?_, by decide, by decide, by decide⟩
  simp [Mup.set_lrs, show rsplitUnpack2 "a/b/c" = none from by decide]

/-- C3 amended: the decomposition operations agree with splitting at the last
separator only for full names holding exactly one separator (two chunks);
for any other full name the unpacking operations used by learning-rate
recording and base-shape lookup fail, and the forward-pass getter keys the
registry on the text before the first separator. -/
theorem name_split_amended (s : String) :
    ((pySplitSlash s).length = 2 →
      rsplitUnpack2 s = some (lastSepSplit s) ∧
      rsplitHead s = (lastSepSplit s).1) ∧
    ((pySplitSlash s).length ≠ 2 → rsplitUnpack2 s = none) ∧
    rsplitHead s = (pySplitSlash s).headD "" := by
  refine ⟨?_, ?_, rfl⟩
  · intro h2
    obtain ⟨p, n, hp⟩ := List.length_eq_two.mp h2
    constructor
    · simp [rsplitUnpack2, hp, lastSepSplit, joinSlash]
    · simp [rsplitHead, hp, lastSepSplit, joinSlash]
  · intro h2
    unfold rsplitUnpack2
    rcases hp : pySplitSlash s with - | ⟨a, - | ⟨b, - | ⟨c, t⟩⟩⟩
    · rfl
    · rfl
    · simp [hp] at h2
    · rfl

/-- Witness for the amended C3: a one-separator name splits at it. -/
theorem name_split_amended_witness :
    rsplitUnpack2 "lin/w" = some ("lin", "w") ∧ rsplitHead "lin/w" = "lin" := by
  have h := (name_split_amended "lin/w").1 (by decide)
  exact ⟨h.1.trans (by decide), h.2.trans (by decide)⟩

/-- C4: evaluating `init_context` at a session whose registry is already
populated: the re-use error raised at entry leaves the process-wide
active-session marker set and the base-shapes reference bound, because the
raise precedes the try/finally — the guaranteed cleanup the claim states for
that path does not happen. For contrast, the normal-return and body-error
paths do clear both. -/
theorem init_context_reuse_leak :
    Mup.init_context ⟨false, mFixUsed⟩ [("m", [("w", [3])])] (fun s => (s, false)) =
      .reuseError ⟨true, { mFixUsed with base_shapes := some [("m", [("w", [3])])] }⟩ ∧
    Mup.init_context ⟨false, mkMup⟩ [("m", [("w", [3])])] (fun s => (s, false)) =
      .ok ⟨false, mkMup⟩ ∧
    Mup.init_context ⟨false, mkMup⟩ [("m", [("w", [3])])] (fun s => (s, true)) =
      .bodyError ⟨false, mkMup⟩ := by
  refine ⟨rfl, rfl, rfl⟩

/-- C5: a forward-pass read passes the value through unchanged for a
non-readout module, and for a readout module with no recorded multiplier
under its scope key; with a recorded multiplier w ≠ 0 it returns value / w. -/
theorem getter_rules (m : Mup) (value : ℚ) (context : ParamContext) :
    (context.module_is_readout = false → mup_getter m value context = value) ∧
    (context.module_is_readout = true →
      dget m.readout_mults (rsplitHead context.full_name) = none →
      mup_getter m value context = value) ∧
    (∀ w : ℚ, context.module_is_readout = true →
      dget m.readout_mults (rsplitHead context.full_name) = some w → w ≠ 0 →
      mup_getter m value context = value / w) := by
  refine ⟨?_, ?_, ?_⟩
  · intro h
    simp [mup_getter, h]
  · intro h hnone
    simp [mup_getter, h, hnone]
  · intro w h hsome hw
    simp [mup_getter, h, hsome, hw]

/-- Witness for C5: multiplier 8 recorded under "m" divides the read value
24 of the readout parameter "m/w" down to 3. -/
theorem getter_rules_witness :
    mup_getter mFixGet 24 ⟨"m/w", true⟩ = 3 := by
  have hsome : dget mFixGet.readout_mults (rsplitHead "m/w") = some 8 := by
    rw [show rsplitHead "m/w" = "m" from by decide]
    rfl
  have h := (getter_rules mFixGet 24 ⟨"m/w", true⟩).2.2 8 rfl hsome (by norm_num)
  rw [h]
  norm_num

/-- C8: entering the session context fails with the re-use error exactly when
a learning rate has already been recorded (non-empty Adam registry); with an
empty registry the scope is entered. -/
theorem session_reuse_guard (w : World) (bs : Dict (Dict Shape))
    (body : Mup → Mup × Bool) :
    ((Mup.init_context w bs body).isReuseError = true ↔
      w.session.adam_lrs ≠ []) ∧
    (w.session.adam_lrs = [] →
      (Mup.init_context w bs body).isReuseError = false) := by
  cases hl : w.session.adam_lrs with
  | nil =>
    have hfalse : (Mup.init_context w bs body).isReuseError = false := by
      unfold Mup.init_context
      simp only [hl, List.length_nil, ne_eq, not_true_eq_false, if_false,
        ite_not]
      split <;> rfl
    simp [hfalse, hl]
  | cons a rest =>
    have htrue : (Mup.init_context w bs body).isReuseError = true := by
      unfold Mup.init_context
      simp [hl, CtxResult.isReuseError]
    simp [htrue, hl]

/-- Witness for C8: a fresh session (empty registries) enters the context
without the re-use error. -/
theorem session_reuse_guard_witness :
    (Mup.init_context ⟨false, mkMup⟩ [("m", [("w", [3])])]
      (fun s => (s, false))).isReuseError = false :=
  (session_reuse_guard ⟨false, mkMup⟩ [("m", [("w", [3])])]
    (fun s => (s, false))).2 rfl

/-- C9: wrapping an optimizer with an empty learning-rate registry fails with
the empty-registry error; with a non-empty registry the wrapped optimizer
runs the base update and then multiplies the update tree elementwise by the
Adam tree (adam flag true) or the SGD tree (flag false), leaving the state of
that final stage untouched. -/
theorem wrap_optimizer_scaling {σ : Type} (m : Mup)
    (optimizer : GradientTransformation σ) (adam : Bool) :
    (m.adam_lrs = [] ↔
      m.wrap_optimizer optimizer adam = .error .emptyRegistry) ∧
    (∀ wrapped, m.wrap_optimizer optimizer adam = .ok wrapped →
      ∀ (u u1 u2 : Tree) (s : σ × Unit) (s1 : σ),
        optimizer.update_fn u s.1 = some (u1, s1) →
        treeMap2 (fun a b => a * b) u1 (if adam then m.adam_lrs else m.sgd_lrs) =
          some u2 →
        wrapped.update_fn u s = some (u2, (s1, s.2))) := by
  constructor
  · constructor
    · intro hnil
      unfold Mup.wrap_optimizer
      rw [if_pos (by simp [hnil])]
    · intro herr
      by_contra hnil
      have h0 : ¬ m.adam_lrs.length = 0 := by
        cases hl : m.adam_lrs
        · exact absurd hl hnil
        · simp [hl]
      unfold Mup.wrap_optimizer at herr
      rw [if_neg h0] at herr
      exact Except.noConfusion herr
  · intro wrapped hw
    unfold Mup.wrap_optimizer at hw
    by_cases h0 : m.adam_lrs.length = 0
    · rw [if_pos h0] at hw
      exact Except.noConfusion hw
    · simp only [if_neg h0] at hw
      injection hw with h2
      subst h2
      intro u u1 u2 s s1 h1 htm
      simp [optaxChain, h1, htm]

/-- Witness for C9: the pass-through optimizer wrapped over a registry with
adam_lr 2 under ("m", "w") turns the update leaf 5 into 10 and keeps the
state pair unchanged. -/
theorem wrap_optimizer_scaling_witness :
    (optaxChain idOpt secondFix).update_fn [("m", [("w", 5)])] ((), ()) =
      some ([("m", [("w", 10)])], ((), ())) := by
  have htm : treeMap2 (fun a b => a * b) [("m", [("w", (5 : ℚ))])]
      (if true then mFixUsed.adam_lrs else mFixUsed.sgd_lrs) =
      some [("m", [("w", 10)])] := by
    simp [treeMap2, treeStructMatch, innerKeysMatch, dget, mFixUsed, mkMup]
    norm_num
  exact (wrap_optimizer_scaling mFixUsed idOpt true).2 (optaxChain idOpt secondFix)
    rfl [("m", [("w", 5)])] [("m", [("w", 5)])] [("m", [("w", 10)])] ((), ()) ()
    rfl htm

theorem dkeys_dset {α : Type} (d : Dict α) (k : String) (v : α) :
    dkeys (dset d k v) = keysAfterSet (dkeys d) k := by
  unfold dkeys
  induction d with
  | nil => simp [dset, keysAfterSet]
  | cons p rest ih =>
    obtain ⟨k1, v1⟩ := p
    by_cases hk : k1 = k
    · subst hk
      simp [dset, keysAfterSet]
    · simp [dset, keysAfterSet, hk, ih]

theorem dget_keyStruct (d : Dict (Dict ℚ)) (p : String) :
    dget (keyStruct d) p = (dget d p).map dkeys := by
  unfold keyStruct
  induction d with
  | nil => rfl
  | cons q rest ih =>
    obtain ⟨k1, v1⟩ := q
    by_cases hk : k1 = p
    · simp [dget, hk]
    · simp [dget, hk, ih]

theorem keyStruct_dset (d : Dict (Dict ℚ)) (p : String) (i2 : Dict ℚ) :
    keyStruct (dset d p i2) = dset (keyStruct d) p (dkeys i2) := by
  unfold keyStruct
  induction d with
  | nil => rfl
  | cons q rest ih =>
    obtain ⟨k1, v1⟩ := q
    by_cases hk : k1 = p
    · simp [dset, hk]
    · simp [dset, hk, ih]

theorem keyStruct_dsetNested (d : Dict (Dict ℚ)) (p n : String) (v : ℚ) :
    keyStruct (dsetNested d p n v) = kstructSet (keyStruct d) p n := by
  unfold dsetNested kstructSet
  rw [dget_keyStruct]
  cases hd : dget d p
  · simp [keyStruct_dset, dkeys, dset]
  · simp [keyStruct_dset, dkeys_dset]

theorem set_lrs_mirror (m : Mup) (f : String) (sgd adam : ℚ)
    (hmir : keyStruct m.sgd_lrs = keyStruct m.adam_lrs) :
    keyStruct ((m.set_lrs f sgd adam).1).sgd_lrs =
      keyStruct ((m.set_lrs f sgd adam).1).adam_lrs := by
  unfold Mup.set_lrs
  cases hs : rsplitUnpack2 f
  · simpa using hmir
  · rename_i pr
    obtain ⟨p, n⟩ := pr
    simp [keyStruct_dsetNested, hmir]

theorem runSetLrs_mirror (ops : List (String × ℚ × ℚ)) (m : Mup)
    (hmir : keyStruct m.sgd_lrs = keyStruct m.adam_lrs) :
    keyStruct (runSetLrs m ops).sgd_lrs =
      keyStruct (runSetLrs m ops).adam_lrs := by
  induction ops generalizing m with
  | nil => simpa [runSetLrs] using hmir
  | cons op rest ih =>
    obtain ⟨f, sgd, adam⟩ := op
    have hstep := set_lrs_mirror m f sgd adam hmir
    unfold runSetLrs
    cases hs : m.set_lrs f sgd adam with
    | mk m1 r =>
      rw [hs] at hstep
      cases r with
      | ok u => exact ih m1 hstep
      | error e => exact hstep

/-- C10: after any sequence of learning-rate recordings starting from a fresh
session, the SGD and Adam registries hold exactly the same (parent, name) key
structure, so the non-emptiness of the Adam registry checked at session entry
and at optimizer wrapping decides emptiness of both registries. -/
theorem registries_mirror (ops : List (String × ℚ × ℚ)) :
    keyStruct (runSetLrs mkMup ops).sgd_lrs =
      keyStruct (runSetLrs mkMup ops).adam_lrs ∧
    ((runSetLrs mkMup ops).adam_lrs = [] ↔
      (runSetLrs mkMup ops).sgd_lrs = []) := by
  have h := runSetLrs_mirror ops mkMup rfl
  refine ⟨h, ⟨fun ha => ?_, fun hs => ?_⟩⟩
  · have h2 := h
    rw [ha] at h2
    cases hsgd : (runSetLrs mkMup ops).sgd_lrs with
    | nil => rfl
    | cons x t =>
      rw [hsgd] at h2
      simp [keyStruct] at h2
  · have h2 := h
    rw [hs] at h2
    cases hadam : (runSetLrs mkMup ops).adam_lrs with
    | nil => rfl
    | cons x t =>
      rw [hadam] at h2
      simp [keyStruct] at h2

end HkMup
